import Mathlib

/-!
Verification development for the `VSXExtensionsModel` of the Theia
vsx-registry package (src/packages/vsx-registry/src/browser/vsx-extensions-model.ts).
The model code is shallowly embedded: JS strings become lists of characters,
the `Map`/`Set` fields of the model become association lists and duplicate-free
lists, and every method of the model becomes a Lean function translated
statement by statement from the TypeScript source.
-/

namespace VsxReg

/-- JS strings are modelled as lists of characters. -/
abbrev Str := List Char

/-- Models JS `String.prototype.toLowerCase` (character-wise lowering). -/
def lowerS (s : Str) : Str := s.map Char.toLower

/-- Models JS `hay.indexOf(needle) > -1`: contiguous-substring test.
JS `indexOf` of the empty string is `0`, so the empty needle always matches. -/
def containsSub (hay needle : Str) : Bool :=
  match hay with
  | [] => needle.isEmpty
  | c :: t => needle.isPrefixOf (c :: t) || containsSub t needle

/-- Models JS `String.prototype.trim` on the front of the string. -/
def dropLeadingWs (l : Str) : Str := l.dropWhile Char.isWhitespace

/-- Models JS `String.prototype.trim` on the back of the string. -/
def dropTrailingWs (l : Str) : Str := (l.reverse.dropWhile Char.isWhitespace).reverse

/-- Models JS `String.prototype.trim`. -/
def trimStr (l : Str) : Str := dropTrailingWs (dropLeadingWs l)

/-- Models JS `l.replace(pat, rep)` with a plain-string pattern: only the
first (leftmost) occurrence of `pat` is replaced. -/
def jsReplaceFirst (l pat rep : Str) : Str :=
  if pat.isPrefixOf l then rep ++ l.drop pat.length
  else
    match l with
    | [] => []
    | c :: t => c :: jsReplaceFirst t pat rep

/-- Models `getPrefix` of the source: `query.split(' ')[0]`, i.e. the segment
of the query before its first space character. -/
def getPrefixStr (q : Str) : Str := q.takeWhile (fun c => c != ' ')

/-- Models `isPrefixQuery` of the source: `query.startsWith('@')`. -/
def isPrefixQueryStr (q : Str) : Bool :=
  match q with
  | [] => false
  | c :: _ => c == '@'

/-- Models `isInstalledPrefix` of the source: `/@installed/i.test(s)`, a
case-insensitive substring test (the regular expression is unanchored). -/
def reTestInstalled (s : Str) : Bool :=
  containsSub (lowerS s) (lowerS ("@installed".toList))

/-- Models `isBuiltInPrefix` of the source: `/@builtin/i.test(s)`. -/
def reTestBuiltin (s : Str) : Bool :=
  containsSub (lowerS s) (lowerS ("@builtin".toList))

/-- JS truthiness of an optional string: `undefined` and `''` are falsy. -/
def isTruthyStr (o : Option Str) : Bool :=
  match o with
  | none => false
  | some s => !s.isEmpty

/-- Models `Set.prototype.add` of a JS `Set` realised as a duplicate-free
list in insertion order. -/
def jsSetAdd (l : List Str) (x : Str) : List Str :=
  if x ∈ l then l else l ++ [x]

/-- Models `new Set(xs)`: insert all members in order, dropping duplicates. -/
def jsSetOfList (l : List Str) : List Str := l.foldl jsSetAdd []

/-- Modelled from the spec: the `VSXExtension` entity (its class lives in
vsx-extension.ts, which is not part of the reviewed sources). §3 of the spec:
identified by a lowercase `namespace.name` string, with display name,
publisher, description, version, builtin flag, installed flag,
readme/download/icon/license URLs and a lazily populated compiled readme. -/
structure VSXExtension where
  id : Str
  displayName : Option Str := none
  description : Option Str := none
  publisher : Option Str := none
  version : Option Str := none
  builtin : Bool := false
  installed : Bool := false
  readmeUrl : Option Str := none
  readme : Option Str := none
  downloadUrl : Option Str := none
  iconUrl : Option Str := none
  licenseUrl : Option Str := none
deriving DecidableEq

/-- The data handed to `VSXExtension.update`; absent fields leave the
corresponding attribute of the extension unchanged. -/
structure UpdateData where
  displayName : Option Str := none
  description : Option Str := none
  publisher : Option Str := none
  version : Option Str := none
  readmeUrl : Option Str := none
  readme : Option Str := none
  downloadUrl : Option Str := none
  iconUrl : Option Str := none
  licenseUrl : Option Str := none
deriving DecidableEq

/-- Merge of one attribute: a present new value overwrites, an absent new
value keeps the old one. -/
def mergeField (n o : Option Str) : Option Str :=
  match n with
  | some v => some v
  | none => o

/-- Modelled from the spec: `VSXExtension.update` (vsx-extension.ts is not
part of the reviewed sources). §3 of the spec: updates merge new data into
the existing instance rather than replacing it; the identity is unchanged. -/
def updateExt (ext : VSXExtension) (d : UpdateData) : VSXExtension :=
  { ext with
    displayName := mergeField d.displayName ext.displayName
    description := mergeField d.description ext.description
    publisher := mergeField d.publisher ext.publisher
    version := mergeField d.version ext.version
    readmeUrl := mergeField d.readmeUrl ext.readmeUrl
    readme := mergeField d.readme ext.readme
    downloadUrl := mergeField d.downloadUrl ext.downloadUrl
    iconUrl := mergeField d.iconUrl ext.iconUrl
    licenseUrl := mergeField d.licenseUrl ext.licenseUrl }

/-- Models `this.extensionFactory({ id })`: a fresh entry holding only the id. -/
def mkExtension (id : Str) : VSXExtension := { id := id }

/-- The `extensions` map of the model (`Map<string, VSXExtension>`),
realised as an association list in insertion order. -/
abbrev ExtMap := List (Str × VSXExtension)

/-- Models `Map.prototype.get`. -/
def findExt : ExtMap → Str → Option VSXExtension
  | [], _ => none
  | (k, v) :: t, id => if k = id then some v else findExt t id

/-- Models `Map.prototype.set`: overwrite the binding if the key is present,
append a new binding otherwise. -/
def mapSetExt : ExtMap → Str → VSXExtension → ExtMap
  | [], id, ext => [(id, ext)]
  | (k, v) :: t, id, ext =>
    if k = id then (k, ext) :: t else (k, v) :: mapSetExt t id ext

/-- Models `setExtension` of the source on the raw map: return the existing
entry, or create and register a fresh one. -/
def setExtensionMap (m : ExtMap) (id : Str) : VSXExtension × ExtMap :=
  match findExt m id with
  | some ext => (ext, m)
  | none => (mkExtension id, m ++ [(id, mkExtension id)])

/-- A plugin as reported by the plugin host: `plugin.model.id` and
`plugin.model.engine.type`. -/
structure Plugin where
  id : Str
  engineType : Str
deriving DecidableEq

/-- The `files` record of a remote result (`data.files`). -/
structure SearchFiles where
  download : Option Str := none
  icon : Option Str := none
  readme : Option Str := none
  license : Option Str := none
deriving DecidableEq

/-- What `api.getLatestCompatibleVersion` yields for a search-result group. -/
structure VersionInfo where
  version : Str
deriving DecidableEq

/-- One group of a remote search result (`result.extensions[i]`), together
with the answer of the external `getLatestCompatibleVersion` collaborator on
its `allVersions` field. -/
structure SearchEntry where
  ns : Str
  name : Str
  displayName : Option Str := none
  description : Option Str := none
  files : SearchFiles := {}
  latestCompatible : Option VersionInfo := none
deriving DecidableEq

/-- The data returned by `api.getLatestCompatibleExtensionVersion(id)`:
remote metadata, possibly carrying a domain-level `error` field. -/
structure VersionData where
  ns : Str
  version : Str
  displayName : Option Str := none
  description : Option Str := none
  files : SearchFiles := {}
  err : Option Str := none
deriving DecidableEq

/-- Outcome of the awaited `getLatestCompatibleExtensionVersion` call:
either the request threw, or it produced a (possibly absent) data record. -/
inductive RefreshResp where
  | thrown
  | value (v : Option VersionData)
deriving DecidableEq

/-- Outcome of the awaited `fetchText(readmeUrl)` call: the text, a typed
response error carrying a status code, or any other thrown error. -/
inductive FetchResp where
  | ok (text : Str)
  | errStatus (code : Nat)
  | errOther
deriving DecidableEq

/-- Notifications emitted by the model: `onDidChange` and `onDidResults(n)`. -/
inductive ModelEvent where
  | didChange
  | didResults (n : Nat)
deriving DecidableEq

/-- The mutable state of `VSXExtensionsModel`: the extension map, the three
id-sets, the emitted notifications and the `console.error` diagnostics. -/
structure ModelState where
  extensions : ExtMap
  installed : List Str
  defaultInstalled : List Str
  searchResult : List Str
  events : List ModelEvent
  logs : List Str
deriving DecidableEq

/-- The state of a freshly constructed model: everything empty. -/
def initState : ModelState :=
  { extensions := [], installed := [], defaultInstalled := [],
    searchResult := [], events := [], logs := [] }

/-- Models `matchResults` of the source: skip the extension when its display
name or description is falsy (absent or empty), otherwise add its id to the
result set when the id, name or description contains the query. -/
def matchResults (ext : VSXExtension) (query : Str) (results : List Str) : List Str :=
  match ext.displayName, ext.description with
  | some name, some desc =>
    if name.isEmpty || desc.isEmpty then results
    else if containsSub (lowerS ext.id) query || containsSub (lowerS name) query
        || containsSub (lowerS desc) query then
      jsSetAdd results ext.id
    else results
  | _, _ => results

/-- The `for (const plugin of plugins)` loop of `filterLocalExtensions`:
look every plugin id up in the extension map, and run `matchResults` under
the built-in branch (prefix matches `/@builtin/i` and the extension is
builtin) or the installed branch (prefix matches `/@installed/i`). -/
def filterLoop (m : ExtMap) (pref needle : Str) : List Plugin → List Str → List Str
  | [], acc => acc
  | p :: ps, acc =>
    filterLoop m pref needle ps
      (match findExt m p.id with
       | none => acc
       | some ext =>
         if reTestBuiltin pref && ext.builtin then matchResults ext needle acc
         else if reTestInstalled pref then matchResults ext needle acc
         else acc)

/-- Models `filterLocalExtensions` of the source: split off the leading
token, remove its first occurrence from the query, trim and lowercase the
remainder, rebuild `_installed` from the matching plugins, and fire
`onDidResults` when the whole query passes `/@installed/i` or `/@builtin/i`. -/
def filterLocalExtensions (plugins : List Plugin) (query : Str) (s : ModelState) : ModelState :=
  let pref := getPrefixStr query
  let needle := lowerS (trimStr (jsReplaceFirst query pref []))
  let newInstalled := filterLoop s.extensions pref needle plugins []
  let s1 := { s with installed := newInstalled }
  if reTestInstalled query || reTestBuiltin query then
    { s1 with events := s1.events ++ [ModelEvent.didResults newInstalled.length] }
  else s1

/-- The computed id of a remote search group: `namespace.name`, lowercased. -/
def computedId (e : SearchEntry) : Str :=
  lowerS e.ns ++ '.' :: lowerS e.name

/-- The update record built in `getSearchResults`: `Object.assign(data,
{ publisher, downloadUrl, iconUrl, readmeUrl, licenseUrl, version })`. -/
def searchUpdateData (e : SearchEntry) (v : VersionInfo) : UpdateData :=
  { displayName := e.displayName
    description := e.description
    publisher := some e.ns
    version := some v.version
    downloadUrl := e.files.download
    iconUrl := e.files.icon
    readmeUrl := e.files.readme
    licenseUrl := e.files.license }

/-- The `for (const data of result.extensions)` loop of `getSearchResults`:
skip groups without a latest compatible version, otherwise merge the remote
fields into the registry entry for the computed id and collect that id. -/
def searchLoop : List SearchEntry → List Str → ExtMap → List Str × ExtMap
  | [], acc, m => (acc, m)
  | e :: es, acc, m =>
    match e.latestCompatible with
    | none => searchLoop es acc m
    | some v =>
      let id := computedId e
      let em := setExtensionMap m id
      searchLoop es (jsSetAdd acc id)
        (mapSetExt em.2 id (updateExt em.1 (searchUpdateData e v)))

/-- Models `getSearchResults` of the source: run the loop, replace
`_searchResult` by the collected set, and always fire `onDidResults` with
the size of the new set. -/
def getSearchResults (result : List SearchEntry) (s : ModelState) : ModelState :=
  let rm := searchLoop result [] s.extensions
  { s with
    extensions := rm.2
    searchResult := rm.1
    events := s.events ++ [ModelEvent.didResults rm.1.length] }

/-- Appends the `onDidChange` firing performed by `doChange` after an
uncancelled task completes. -/
def withDidChange (s : ModelState) : ModelState :=
  { s with events := s.events ++ [ModelEvent.didChange] }

/-- Models an uncancelled, uninterrupted run of `doUpdateSearchResult`
inside its `doChange` wrapper. `api` is the remote `search` collaborator;
the returned flag records whether the remote search API was called. -/
def doUpdateSearchResultRun (plugins : List Plugin) (api : Str → List SearchEntry)
    (query : Str) (s : ModelState) : ModelState × Bool :=
  if query.isEmpty then
    (withDidChange { s with installed := s.defaultInstalled }, false)
  else if isPrefixQueryStr query then
    (withDidChange (filterLocalExtensions plugins query s), false)
  else
    (withDidChange (getSearchResults (api query) s), true)

/-- Character comparison underlying the model of `localeCompare`. -/
def chCmp (a b : Char) : Ordering :=
  if a < b then Ordering.lt else if b < a then Ordering.gt else Ordering.eq

/-- Model of `String.prototype.localeCompare`: lexicographic comparison
(the locale-specific collation is owned by the host environment). -/
def lexCmp : Str → Str → Ordering
  | [], [] => Ordering.eq
  | [], _ :: _ => Ordering.lt
  | _ :: _, [] => Ordering.gt
  | a :: as, b :: bs =>
    match chCmp a b with
    | Ordering.eq => lexCmp as bs
    | o => o

/-- Models `compareExtensions` of the source: compare by display name when
both are truthy, else by publisher when both are truthy, else report
equality (`0`). -/
def compareExtensions (m : ExtMap) (a b : Str) : Ordering :=
  match findExt m a, findExt m b with
  | some ea, some eb =>
    if isTruthyStr ea.displayName && isTruthyStr eb.displayName then
      lexCmp (ea.displayName.getD []) (eb.displayName.getD [])
    else if isTruthyStr ea.publisher && isTruthyStr eb.publisher then
      lexCmp (ea.publisher.getD []) (eb.publisher.getD [])
    else Ordering.eq
  | _, _ => Ordering.eq

/-- Stable insertion of one element into an already processed list: the new
element goes after every earlier element that does not compare greater. -/
def insSorted (cmp : Str → Str → Ordering) : List Str → Str → List Str
  | [], x => [x]
  | y :: ys, x =>
    if cmp y x = Ordering.gt then x :: y :: ys else y :: insSorted cmp ys x

/-- Model of `Array.prototype.sort` with a comparator: a stable sort
(ties keep their original relative order). -/
def stableSort (cmp : Str → Str → Ordering) (l : List Str) : List Str :=
  l.foldl (insSorted cmp) []

/-- The `for (const plugin of plugins)` loop of `updateInstalled`: for every
plugin with engine type `vscode`, delete its id from the old `_installed`
set, ensure a registry entry exists and collect the entry's id. The per-id
refreshes pushed here are fire-and-forget and are modelled as separate
`ModelStep` transitions. -/
def scanLoop : List Plugin → List Str → ModelState → List Str × ModelState
  | [], acc, st => (acc, st)
  | p :: ps, acc, st =>
    if p.engineType = "vscode".toList then
      let st1 := { st with installed := st.installed.filter (fun x => x != p.id) }
      let em := setExtensionMap st1.extensions p.id
      scanLoop ps (jsSetAdd acc em.1.id) { st1 with extensions := em.2 }
    else scanLoop ps acc st

/-- Models `updateInstalled` of the source (inside its `doChange` wrapper):
scan the plugin list, sort the collected ids with `compareExtensions`, and
replace `_installed` with the sorted set; `onDidChange` fires on completion. -/
def updateInstalled (plugins : List Plugin) (s : ModelState) : ModelState :=
  let r := scanLoop plugins [] s
  let sorted := stableSort (fun a b => compareExtensions r.2.extensions a b) r.1
  { r.2 with
    installed := jsSetOfList sorted
    events := r.2.events ++ [ModelEvent.didChange] }

/-- Models `onDidFailRefresh` of the source: return the cached entry when it
exists and is installed, otherwise log a diagnostic and return nothing. -/
def onDidFailRefresh (id : Str) (s : ModelState) : Option VSXExtension × ModelState :=
  match findExt s.extensions id with
  | some cached =>
    if cached.installed then (some cached, s)
    else (none, { s with logs := s.logs ++ [id] })
  | none => (none, { s with logs := s.logs ++ [id] })

/-- The update record built in `refresh` from the remote version data. -/
def versionUpdateData (d : VersionData) : UpdateData :=
  { displayName := d.displayName
    description := d.description
    publisher := some d.ns
    version := some d.version
    downloadUrl := d.files.download
    iconUrl := d.files.icon
    readmeUrl := d.files.readme
    licenseUrl := d.files.license }

/-- Models `refresh` of the source: on a thrown request or a domain-level
error fall back to `onDidFailRefresh`; on absent data return nothing; on
success merge the remote fields into the registry entry and return it. -/
def refreshRun (id : Str) (resp : RefreshResp) (s : ModelState) :
    Option VSXExtension × ModelState :=
  match resp with
  | RefreshResp.thrown => onDidFailRefresh id s
  | RefreshResp.value none => (none, s)
  | RefreshResp.value (some d) =>
    if d.err.isSome then onDidFailRefresh id s
    else
      let em := setExtensionMap s.extensions id
      let ext := updateExt em.1 (versionUpdateData d)
      (some ext, { s with extensions := mapSetExt em.2 id ext })

/-- Models `resolve` of the source (inside its `doChange` wrapper): refresh
the id, fail when nothing came back, otherwise fetch and compile the readme
when a readme URL is present, suppressing a 404 response error from the
logs and logging every other failure; `onDidChange` fires on success only.
`compile` stands for the markdown-conversion and sanitising collaborators. -/
def resolveRun (compile : Str → Str) (id : Str) (resp : RefreshResp)
    (fetch : FetchResp) (s : ModelState) : Except Unit VSXExtension × ModelState :=
  let rs := refreshRun id resp s
  match rs.1 with
  | none => (Except.error (), rs.2)
  | some ext =>
    if isTruthyStr ext.readmeUrl then
      match fetch with
      | FetchResp.ok text =>
        let newExt := updateExt ext { readme := some (compile text) }
        (Except.ok newExt,
         withDidChange { rs.2 with extensions := mapSetExt rs.2.extensions id newExt })
      | FetchResp.errStatus code =>
        if code = 404 then (Except.ok ext, withDidChange rs.2)
        else (Except.ok ext, withDidChange { rs.2 with logs := rs.2.logs ++ [id] })
      | FetchResp.errOther =>
        (Except.ok ext, withDidChange { rs.2 with logs := rs.2.logs ++ [id] })
    else (Except.ok ext, withDidChange rs.2)

/-!
A small-step machine for the interleaving of debounced search-update tasks.
Each task runs `doUpdateSearchResult` inside `doChange` with its own
cancellation token.  Its steps are: `startT` (the synchronous part up to and
including the token checks of `doChange` and `doUpdateSearchResult`, then
either the synchronous empty-query / local-filter branch or suspension at
`await this.api.search`), `resumeT` (the continuation after the remote
search resolves: `getSearchResults` runs with no further token check, as in
the source), and `postT` (the check `doChange` performs after the task body,
firing `onDidChange` only when the token is still uncancelled).  `cancelT`
models `this.searchCancellationTokenSource.cancel()`.
-/

/-- Program counter of one search-update task. -/
inductive TaskPC where
  | ready
  | waiting
  | post
  | done
deriving DecidableEq

/-- One in-flight search-update task: its cancellation token, its captured
query, and its program counter. -/
structure TaskRec where
  token : Nat
  query : Str
  pc : TaskPC
deriving DecidableEq

/-- Global state of the machine: the model state shared by all tasks, the
set of cancelled tokens, and the task table keyed by task id. -/
structure SysState where
  model : ModelState
  cancelledToks : List Nat
  tasks : List (Nat × TaskRec)
deriving DecidableEq

/-- Look a task up by id. -/
def findTask : List (Nat × TaskRec) → Nat → Option TaskRec
  | [], _ => none
  | (k, t) :: rest, tid => if k = tid then some t else findTask rest tid

/-- Replace the program counter of one task. -/
def setTaskPC (l : List (Nat × TaskRec)) (tid : Nat) (pc : TaskPC) : List (Nat × TaskRec) :=
  l.map (fun kv => if kv.1 = tid then (kv.1, { kv.2 with pc := pc }) else kv)

/-- One scheduling action: run the next step of a task, or cancel a token. -/
inductive SchedAction where
  | startT (tid : Nat)
  | resumeT (tid : Nat)
  | postT (tid : Nat)
  | cancelT (tok : Nat)
deriving DecidableEq

/-- One step of the machine. -/
def sysStep (plugins : List Plugin) (api : Str → List SearchEntry)
    (sys : SysState) : SchedAction → SysState
  | SchedAction.cancelT tok => { sys with cancelledToks := tok :: sys.cancelledToks }
  | SchedAction.startT tid =>
    match findTask sys.tasks tid with
    | none => sys
    | some t =>
      if t.pc = TaskPC.ready then
        if t.token ∈ sys.cancelledToks then
          { sys with tasks := setTaskPC sys.tasks tid TaskPC.done }
        else if t.query.isEmpty then
          { sys with
            model := { sys.model with installed := sys.model.defaultInstalled }
            tasks := setTaskPC sys.tasks tid TaskPC.post }
        else if isPrefixQueryStr t.query then
          { sys with
            model := filterLocalExtensions plugins t.query sys.model
            tasks := setTaskPC sys.tasks tid TaskPC.post }
        else { sys with tasks := setTaskPC sys.tasks tid TaskPC.waiting }
      else sys
  | SchedAction.resumeT tid =>
    match findTask sys.tasks tid with
    | none => sys
    | some t =>
      if t.pc = TaskPC.waiting then
        { sys with
          model := getSearchResults (api t.query) sys.model
          tasks := setTaskPC sys.tasks tid TaskPC.post }
      else sys
  | SchedAction.postT tid =>
    match findTask sys.tasks tid with
    | none => sys
    | some t =>
      if t.pc = TaskPC.post then
        if t.token ∈ sys.cancelledToks then
          { sys with tasks := setTaskPC sys.tasks tid TaskPC.done }
        else
          { sys with
            model := withDidChange sys.model
            tasks := setTaskPC sys.tasks tid TaskPC.done }
      else sys

/-- Run a whole schedule. -/
def sysRun (plugins : List Plugin) (api : Str → List SearchEntry)
    (sys : SysState) (sched : List SchedAction) : SysState :=
  sched.foldl (sysStep plugins api) sys

/-!
Reachability of model states.  The transitions cover every mutation the
source performs on the shared state, including the partial states a
cancelled task leaves behind (each branch of `doUpdateSearchResult` is also
available as its own transition, and the composite uncancelled run too).
-/

/-- One mutating transition of the model. -/
inductive ModelStep : ModelState → ModelState → Prop where
  | assignDefaultInstalled (s : ModelState) :
      ModelStep s { s with installed := s.defaultInstalled }
  | localFilter (plugins : List Plugin) (query : Str) (s : ModelState) :
      ModelStep s (filterLocalExtensions plugins query s)
  | remoteResults (entries : List SearchEntry) (s : ModelState) :
      ModelStep s (getSearchResults entries s)
  | searchRun (plugins : List Plugin) (api : Str → List SearchEntry)
      (query : Str) (s : ModelState) :
      ModelStep s (doUpdateSearchResultRun plugins api query s).1
  | scanInstalled (plugins : List Plugin) (s : ModelState) :
      ModelStep s (updateInstalled plugins s)
  | snapshotDefault (s : ModelState) :
      ModelStep s { s with defaultInstalled := s.installed }
  | refreshStep (id : Str) (resp : RefreshResp) (s : ModelState) :
      ModelStep s (refreshRun id resp s).2
  | resolveStep (compile : Str → Str) (id : Str) (resp : RefreshResp)
      (fetch : FetchResp) (s : ModelState) :
      ModelStep s (resolveRun compile id resp fetch s).2
  | fireChange (s : ModelState) :
      ModelStep s (withDidChange s)

/-- States reachable from the freshly constructed model. -/
inductive ReachableModel : ModelState → Prop where
  | init : ReachableModel initState
  | step {s s' : ModelState} :
      ReachableModel s → ModelStep s s' → ReachableModel s'

/-- Well-formedness of the extension map: every entry records the id it is
registered under. -/
def WFExtMap (m : ExtMap) : Prop :=
  ∀ k ext, findExt m k = some ext → ext.id = k

/-- The id-set invariant of the spec: every id in `installedIds`,
`defaultInstalledIds` or `searchResultIds` has an entry in the map. -/
def InvIds (s : ModelState) : Prop :=
  ∀ id, id ∈ s.installed ∨ id ∈ s.defaultInstalled ∨ id ∈ s.searchResult →
    (findExt s.extensions id).isSome = true

/-!
Claim-side characterisations, written from the wording of the claims, to be
compared with the operational definitions above.
-/

/-- Claim side of C4: one installed candidate matches when it has a registry
entry with a truthy display name and description and the needle occurs
(case-insensitively) in its id, display name or description. -/
def localMatchSpec (m : ExtMap) (needle : Str) (p : Plugin) : Option Str :=
  match findExt m p.id with
  | none => none
  | some ext =>
    match ext.displayName, ext.description with
    | some name, some desc =>
      if name.isEmpty || desc.isEmpty then none
      else if containsSub (lowerS ext.id) needle || containsSub (lowerS name) needle
          || containsSub (lowerS desc) needle then some ext.id
      else none
    | _, _ => none

/-- Claim side of C8: the computed ids of the result groups that have a
latest compatible version. -/
def searchSpecIds (entries : List SearchEntry) : List Str :=
  entries.filterMap (fun e => e.latestCompatible.map (fun _ => computedId e))

/-- Claim side of C9: the ids of the plugins whose engine type is the
supported kind. -/
def vscodeIds (plugins : List Plugin) : List Str :=
  plugins.filterMap
    (fun p => if p.engineType = "vscode".toList then some p.id else none)

/-- Claim side of C9: the extension map after the installed scan registered
an entry for every supported plugin. -/
def scanExtMap : List Plugin → ExtMap → ExtMap
  | [], m => m
  | p :: ps, m =>
    scanExtMap ps
      (if p.engineType = "vscode".toList then (setExtensionMap m p.id).2 else m)

/-- Whether a per-id refresh outcome is a failure in the sense of C6: the
request threw, or the collaborator reported a domain-level error. -/
def refreshFailed (resp : RefreshResp) : Bool :=
  match resp with
  | RefreshResp.thrown => true
  | RefreshResp.value none => false
  | RefreshResp.value (some d) => d.err.isSome

/-! Basic lemmas about the map model. -/

lemma findExt_append_some {m l : ExtMap} {k : Str} {v : VSXExtension}
    (h : findExt m k = some v) : findExt (m ++ l) k = some v := by
  induction m with
  | nil => simp [findExt] at h
  | cons kv t ih =>
    obtain ⟨k0, v0⟩ := kv
    by_cases hk : k0 = k
    · simp [findExt, hk] at h ⊢
      exact h
    · simp [findExt, hk] at h ⊢
      exact ih h

lemma findExt_append_none {m l : ExtMap} {k : Str}
    (h : findExt m k = none) : findExt (m ++ l) k = findExt l k := by
  induction m with
  | nil => simp
  | cons kv t ih =>
    obtain ⟨k0, v0⟩ := kv
    by_cases hk : k0 = k
    · simp [findExt, hk] at h
    · simp [findExt, hk] at h ⊢
      exact ih h

lemma findExt_mapSetExt (m : ExtMap) (id : Str) (ext : VSXExtension) (q : Str) :
    findExt (mapSetExt m id ext) q = if q = id then some ext else findExt m q := by
  induction m with
  | nil =>
    by_cases h : q = id
    · simp [mapSetExt, findExt, h]
    · simp [mapSetExt, findExt, h, Ne.symm h]
  | cons kv t ih =>
    obtain ⟨k0, v0⟩ := kv
    by_cases hk : k0 = id
    · subst hk
      by_cases hq : k0 = q
      · subst hq
        simp [mapSetExt, findExt]
      · simp [mapSetExt, findExt, hq, Ne.symm hq]
    · by_cases hq : k0 = q
      · subst hq
        simp [mapSetExt, findExt, hk]
      · simp [mapSetExt, findExt, hk, hq, ih]

lemma setExtensionMap_fst (m : ExtMap) (id : Str) :
    (setExtensionMap m id).1 = (findExt m id).getD (mkExtension id) := by
  unfold setExtensionMap
  cases h : findExt m id <;> simp [h]

lemma findExt_setExtensionMap (m : ExtMap) (id q : Str) :
    findExt (setExtensionMap m id).2 q =
      if q = id then some (setExtensionMap m id).1 else findExt m q := by
  unfold setExtensionMap
  cases h : findExt m id with
  | some ext =>
    by_cases hq : q = id
    · subst hq
      simp [h]
    · simp [h, hq]
  | none =>
    by_cases hq : q = id
    · subst hq
      simp [h, findExt_append_none h, findExt]
    · simp [hq]
      cases hm : findExt m q with
      | some v => exact findExt_append_some hm
      | none =>
        rw [findExt_append_none hm]
        simp [findExt, Ne.symm hq]

lemma updateExt_id (ext : VSXExtension) (d : UpdateData) :
    (updateExt ext d).id = ext.id := rfl

lemma wf_mapSetExt {m : ExtMap} {id : Str} {ext : VSXExtension}
    (hm : WFExtMap m) (hid : ext.id = id) : WFExtMap (mapSetExt m id ext) := by
  intro k e h
  rw [findExt_mapSetExt] at h
  by_cases hk : k = id
  · simp [hk] at h
    rw [← h, hid, hk]
  · simp [hk] at h
    exact hm k e h

lemma wf_setExtensionMap {m : ExtMap} (hm : WFExtMap m) (id : Str) :
    WFExtMap (setExtensionMap m id).2 ∧ ((setExtensionMap m id).1).id = id := by
  constructor
  · intro k e h
    rw [findExt_setExtensionMap] at h
    by_cases hk : k = id
    · simp [hk] at h
      rw [setExtensionMap_fst] at h
      cases hf : findExt m id with
      | some ext => rw [← h]; simp [hf]; rw [hk]; exact hm id ext hf
      | none => rw [← h]; simp [hf, mkExtension]; exact hk.symm
    · simp [hk] at h
      exact hm k e h
  · rw [setExtensionMap_fst]
    cases hf : findExt m id with
    | some ext => simpa using hm id ext hf
    | none => simp [mkExtension]

/-! Basic lemmas about the set model. -/

lemma mem_jsSetAdd {l : List Str} {x a : Str} :
    a ∈ jsSetAdd l x ↔ a ∈ l ∨ a = x := by
  unfold jsSetAdd
  by_cases h : x ∈ l
  · simp [h]
    intro ha
    rw [ha]; exact h
  · simp [h]

lemma nodup_jsSetAdd {l : List Str} {x : Str} (h : l.Nodup) :
    (jsSetAdd l x).Nodup := by
  unfold jsSetAdd
  by_cases hx : x ∈ l
  · simpa [hx] using h
  · simp [hx, List.nodup_append, h]

lemma mem_foldl_jsSetAdd (l : List Str) :
    ∀ (acc : List Str) (a : Str), a ∈ l.foldl jsSetAdd acc ↔ a ∈ acc ∨ a ∈ l := by
  induction l with
  | nil => simp
  | cons x t ih =>
    intro acc a
    simp only [List.foldl_cons, ih, mem_jsSetAdd, List.mem_cons]
    tauto

lemma nodup_foldl_jsSetAdd (l : List Str) :
    ∀ (acc : List Str), acc.Nodup → (l.foldl jsSetAdd acc).Nodup := by
  induction l with
  | nil => intro acc h; simpa using h
  | cons x t ih =>
    intro acc h
    exact ih _ (nodup_jsSetAdd h)

lemma mem_jsSetOfList {l : List Str} {a : Str} : a ∈ jsSetOfList l ↔ a ∈ l := by
  unfold jsSetOfList
  rw [mem_foldl_jsSetAdd]
  simp

lemma nodup_jsSetOfList (l : List Str) : (jsSetOfList l).Nodup :=
  nodup_foldl_jsSetAdd l [] List.nodup_nil

lemma foldl_jsSetAdd_of_nodup (l : List Str) :
    ∀ (acc : List Str), (acc ++ l).Nodup → l.foldl jsSetAdd acc = acc ++ l := by
  induction l with
  | nil => simp
  | cons x t ih =>
    intro acc h
    have hx : x ∉ acc := by
      intro hmem
      rw [List.nodup_append] at h
      exact h.2.2 hmem (by simp)
    have hadd : jsSetAdd acc x = acc ++ [x] := by simp [jsSetAdd, hx]
    have h' : ((acc ++ [x]) ++ t).Nodup := by
      simpa [List.append_assoc] using h
    simp only [List.foldl_cons, hadd, ih _ h']
    simp

lemma jsSetOfList_of_nodup {l : List Str} (h : l.Nodup) : jsSetOfList l = l := by
  unfold jsSetOfList
  simpa using foldl_jsSetAdd_of_nodup l [] (by simpa using h)

/-! Basic lemmas about the sort model. -/

lemma insSorted_perm (cmp : Str → Str → Ordering) (l : List Str) (x : Str) :
    (insSorted cmp l x).Perm (x :: l) := by
  induction l with
  | nil => simp [insSorted]
  | cons y ys ih =>
    unfold insSorted
    by_cases h : cmp y x = Ordering.gt
    · simp [h]
    · simp only [h, if_false]
      exact (ih.cons y).trans (List.Perm.swap x y ys)

lemma foldl_insSorted_perm (cmp : Str → Str → Ordering) (l : List Str) :
    ∀ acc : List Str, (l.foldl (insSorted cmp) acc).Perm (acc ++ l) := by
  induction l with
  | nil => simp
  | cons x t ih =>
    intro acc
    have h1 : (t.foldl (insSorted cmp) (insSorted cmp acc x)).Perm
        (insSorted cmp acc x ++ t) := ih _
    have h2 : (insSorted cmp acc x ++ t).Perm ((x :: acc) ++ t) :=
      (insSorted_perm cmp acc x).append_right t
    have h3 : ((x :: acc) ++ t).Perm (acc ++ x :: t) := by
      have hm : (acc ++ x :: t).Perm (x :: (acc ++ t)) := List.perm_middle
      simpa using hm.symm
    exact (h1.trans h2).trans h3

lemma stableSort_perm (cmp : Str → Str → Ordering) (l : List Str) :
    (stableSort cmp l).Perm l := by
  unfold stableSort
  simpa using foldl_insSorted_perm cmp l []

lemma mem_stableSort {cmp : Str → Str → Ordering} {l : List Str} {a : Str} :
    a ∈ stableSort cmp l ↔ a ∈ l :=
  (stableSort_perm cmp l).mem_iff

lemma nodup_stableSort {cmp : Str → Str → Ordering} {l : List Str}
    (h : l.Nodup) : (stableSort cmp l).Nodup :=
  (stableSort_perm cmp l).nodup_iff.mpr h

/-! Lemmas about the remote-search loop. -/

lemma searchLoop_fst (entries : List SearchEntry) :
    ∀ (acc : List Str) (m : ExtMap),
      (searchLoop entries acc m).1 = (searchSpecIds entries).foldl jsSetAdd acc := by
  induction entries with
  | nil => intro acc m; simp [searchLoop, searchSpecIds]
  | cons e es ih =>
    intro acc m
    cases hl : e.latestCompatible with
    | none => simp [searchLoop, hl, searchSpecIds, List.filterMap_cons, ih]
    | some v => simp [searchLoop, hl, searchSpecIds, List.filterMap_cons, ih]

lemma findExt_searchLoop_mono (entries : List SearchEntry) :
    ∀ (acc : List Str) (m : ExtMap) (k : Str),
      (findExt m k).isSome = true →
      (findExt (searchLoop entries acc m).2 k).isSome = true := by
  induction entries with
  | nil => intro acc m k h; simpa [searchLoop] using h
  | cons e es ih =>
    intro acc m k h
    cases hl : e.latestCompatible with
    | none => simpa [searchLoop, hl] using ih acc m k h
    | some v =>
      simp only [searchLoop, hl]
      apply ih
      rw [findExt_mapSetExt]
      by_cases hk : k = computedId e
      · simp [hk]
      · simp only [hk, if_false]
        rw [findExt_setExtensionMap]
        simpa [hk] using h

lemma searchLoop_untouched (entries : List SearchEntry) :
    ∀ (acc : List Str) (m : ExtMap) (k : Str),
      k ∉ searchSpecIds entries →
      findExt (searchLoop entries acc m).2 k = findExt m k := by
  induction entries with
  | nil => intro acc m k _; simp [searchLoop]
  | cons e es ih =>
    intro acc m k hk
    cases hl : e.latestCompatible with
    | none =>
      have hspec : searchSpecIds (e :: es) = searchSpecIds es := by
        simp [searchSpecIds, List.filterMap_cons, hl]
      rw [hspec] at hk
      simpa [searchLoop, hl] using ih acc m k hk
    | some v =>
      have hspec : searchSpecIds (e :: es) = computedId e :: searchSpecIds es := by
        simp [searchSpecIds, List.filterMap_cons, hl]
      rw [hspec, List.mem_cons] at hk
      push_neg at hk
      have hkc : k ≠ computedId e := hk.1
      have hk' : k ∉ searchSpecIds es := hk.2
      simp only [searchLoop, hl]
      rw [ih _ _ _ hk', findExt_mapSetExt]
      simp only [hkc, if_false]
      rw [findExt_setExtensionMap]
      simp [hkc]

lemma searchLoop_isSome_of_mem (entries : List SearchEntry) :
    ∀ (acc : List Str) (m : ExtMap) (k : Str),
      k ∈ searchSpecIds entries →
      (findExt (searchLoop entries acc m).2 k).isSome = true := by
  induction entries with
  | nil => intro acc m k h; simp [searchSpecIds] at h
  | cons e es ih =>
    intro acc m k h
    cases hl : e.latestCompatible with
    | none =>
      have h' : k ∈ searchSpecIds es := by
        simpa [searchSpecIds, List.filterMap_cons, hl] using h
      simpa [searchLoop, hl] using ih acc m k h'
    | some v =>
      simp only [searchLoop, hl]
      by_cases hk : k ∈ searchSpecIds es
      · exact ih _ _ _ hk
      · have hkc : k = computedId e := by
          simp only [searchSpecIds, List.filterMap_cons, hl, Option.map_some] at h
          rcases List.mem_cons.mp h with h1 | h2
          · exact h1
          · exact absurd h2 hk
        apply findExt_searchLoop_mono
        rw [findExt_mapSetExt]
        simp [hkc]

lemma wf_searchLoop (entries : List SearchEntry) :
    ∀ (acc : List Str) (m : ExtMap), WFExtMap m →
      WFExtMap (searchLoop entries acc m).2 := by
  induction entries with
  | nil => intro acc m h; simpa [searchLoop] using h
  | cons e es ih =>
    intro acc m h
    cases hl : e.latestCompatible with
    | none => simpa [searchLoop, hl] using ih acc m h
    | some v =>
      simp only [searchLoop, hl]
      apply ih
      apply wf_mapSetExt (wf_setExtensionMap h (computedId e)).1
      rw [updateExt_id]
      exact (wf_setExtensionMap h (computedId e)).2

lemma searchLoop_at (entries : List SearchEntry) :
    ∀ (acc : List Str) (m : ExtMap), (searchSpecIds entries).Nodup →
      ∀ e ∈ entries, ∀ v, e.latestCompatible = some v →
        findExt (searchLoop entries acc m).2 (computedId e) =
          some (updateExt ((setExtensionMap m (computedId e)).1) (searchUpdateData e v)) := by
  induction entries with
  | nil => intro acc m _ e he; simp at he
  | cons e0 es ih =>
    intro acc m hnd e he v hv
    cases hl : e0.latestCompatible with
    | none =>
      have hnd' : (searchSpecIds es).Nodup := by
        simpa [searchSpecIds, List.filterMap_cons, hl] using hnd
      rcases List.mem_cons.mp he with he0 | hes
      · subst he0; rw [hv] at hl; cases hl
      · simpa [searchLoop, hl] using ih acc m hnd' e hes v hv
    | some v0 =>
      have hnd2 : computedId e0 ∉ searchSpecIds es ∧ (searchSpecIds es).Nodup := by
        have : searchSpecIds (e0 :: es) = computedId e0 :: searchSpecIds es := by
          simp [searchSpecIds, List.filterMap_cons, hl]
        rw [this] at hnd
        exact ⟨(List.nodup_cons.mp hnd).1, (List.nodup_cons.mp hnd).2⟩
      rcases List.mem_cons.mp he with he0 | hes
      · subst he0
        rw [hv] at hl
        cases hl
        simp only [searchLoop, hv]
        rw [searchLoop_untouched es _ _ _ hnd2.1, findExt_mapSetExt]
        simp
      · have hne : computedId e ≠ computedId e0 := by
          intro hc
          apply hnd2.1
          rw [← hc]
          simp only [searchSpecIds]
          exact List.mem_filterMap.mpr ⟨e, hes, by simp [hv]⟩
        simp only [searchLoop, hl]
        rw [ih _ _ hnd2.2 e hes v hv]
        refine congrArg some (congrArg (fun ext => updateExt ext (searchUpdateData e v)) ?_)
        simp only [setExtensionMap_fst]
        refine congrArg (fun o => Option.getD o (mkExtension (computedId e))) ?_
        rw [findExt_mapSetExt]
        simp only [hne, if_false]
        rw [findExt_setExtensionMap]
        simp [hne]

/-! Lemmas about the local-filter loop. -/

lemma matchResults_eq_spec {m : ExtMap} {p : Plugin} {ext : VSXExtension}
    (hf : findExt m p.id = some ext) (needle : Str) (acc : List Str) :
    matchResults ext needle acc =
      (match localMatchSpec m needle p with
       | none => acc
       | some x => jsSetAdd acc x) := by
  unfold matchResults localMatchSpec
  rw [hf]
  cases hd : ext.displayName with
  | none => simp [hd]
  | some name =>
    cases hdd : ext.description with
    | none => simp [hd, hdd]
    | some desc =>
      by_cases h1 : name.isEmpty || desc.isEmpty
      · simp [hd, hdd, h1]
      · by_cases h2 : containsSub (lowerS ext.id) needle || containsSub (lowerS name) needle
            || containsSub (lowerS desc) needle
        · simp [hd, hdd, h1, h2]
        · simp [hd, hdd, h1, h2]

lemma mem_matchResults {ext : VSXExtension} {needle : Str} {acc : List Str} {a : Str}
    (h : a ∈ matchResults ext needle acc) : a ∈ acc ∨ a = ext.id := by
  unfold matchResults at h
  split at h
  · split at h
    · exact Or.inl h
    · split at h
      · exact mem_jsSetAdd.mp h
      · exact Or.inl h
  · exact Or.inl h

lemma filterLoop_eq_spec {pref : Str} (hbi : reTestBuiltin pref = false)
    (hin : reTestInstalled pref = true) (m : ExtMap) (needle : Str)
    (plugins : List Plugin) :
    ∀ acc : List Str,
      filterLoop m pref needle plugins acc =
        (plugins.filterMap (localMatchSpec m needle)).foldl jsSetAdd acc := by
  induction plugins with
  | nil => intro acc; simp [filterLoop]
  | cons p ps ih =>
    intro acc
    cases hf : findExt m p.id with
    | none =>
      have hspec : localMatchSpec m needle p = none := by
        unfold localMatchSpec; rw [hf]
      simp [filterLoop, hf, List.filterMap_cons, hspec, ih]
    | some ext =>
      have hmr := matchResults_eq_spec hf needle acc
      cases hs : localMatchSpec m needle p with
      | none =>
        simp only [hs] at hmr
        simp [filterLoop, hf, hbi, hin, List.filterMap_cons, hs, hmr, ih]
      | some x =>
        simp only [hs] at hmr
        simp [filterLoop, hf, hbi, hin, List.filterMap_cons, hs, hmr, ih]

lemma filterLoop_of_no_kw {pref : Str} (hin : reTestInstalled pref = false)
    (hbi : reTestBuiltin pref = false) (m : ExtMap) (needle : Str)
    (plugins : List Plugin) : ∀ acc : List Str,
      filterLoop m pref needle plugins acc = acc := by
  induction plugins with
  | nil => intro acc; simp [filterLoop]
  | cons p ps ih =>
    intro acc
    cases hf : findExt m p.id with
    | none => simp [filterLoop, hf, ih]
    | some ext => simp [filterLoop, hf, hin, hbi, ih]

lemma filterLoop_isSome {m : ExtMap} (hwf : WFExtMap m) (pref needle : Str)
    (plugins : List Plugin) : ∀ acc : List Str,
      (∀ a ∈ acc, (findExt m a).isSome = true) →
      ∀ a ∈ filterLoop m pref needle plugins acc, (findExt m a).isSome = true := by
  induction plugins with
  | nil => intro acc hacc a ha; exact hacc a ha
  | cons p ps ih =>
    intro acc hacc a ha
    cases hf : findExt m p.id with
    | none =>
      rw [show filterLoop m pref needle (p :: ps) acc
            = filterLoop m pref needle ps acc by simp [filterLoop, hf]] at ha
      exact ih acc hacc a ha
    | some ext =>
      have hextid : (findExt m ext.id).isSome = true := by
        rw [hwf p.id ext hf, hf]; rfl
      have hstep : ∀ acc', (∀ b ∈ acc', (findExt m b).isSome = true) →
          ∀ b ∈ matchResults ext needle acc', (findExt m b).isSome = true := by
        intro acc' hacc' b hb
        rcases mem_matchResults hb with h | h
        · exact hacc' b h
        · rw [h]; exact hextid
      by_cases hb : reTestBuiltin pref && ext.builtin
      · rw [show filterLoop m pref needle (p :: ps) acc
              = filterLoop m pref needle ps (matchResults ext needle acc) by
            simp [filterLoop, hf, hb]] at ha
        exact ih _ (hstep acc hacc) a ha
      · by_cases hi : reTestInstalled pref
        · rw [show filterLoop m pref needle (p :: ps) acc
                = filterLoop m pref needle ps (matchResults ext needle acc) by
              simp [filterLoop, hf, hb, hi]] at ha
          exact ih _ (hstep acc hacc) a ha
        · rw [show filterLoop m pref needle (p :: ps) acc
                = filterLoop m pref needle ps acc by
              simp [filterLoop, hf, hb, hi]] at ha
          exact ih acc hacc a ha

/-! Lemmas about the installed-scan loop. -/

lemma scanLoop_proj (plugins : List Plugin) :
    ∀ (acc : List Str) (st : ModelState),
      (scanLoop plugins acc st).2.extensions = scanExtMap plugins st.extensions ∧
      (scanLoop plugins acc st).2.defaultInstalled = st.defaultInstalled ∧
      (scanLoop plugins acc st).2.searchResult = st.searchResult ∧
      (scanLoop plugins acc st).2.events = st.events ∧
      (scanLoop plugins acc st).2.logs = st.logs := by
  induction plugins with
  | nil => intro acc st; simp [scanLoop, scanExtMap]
  | cons p ps ih =>
    intro acc st
    by_cases hp : p.engineType = "vscode".toList
    · simp only [scanLoop, scanExtMap, if_pos hp]
      exact ih _ _
    · simp only [scanLoop, scanExtMap, if_neg hp]
      exact ih _ _

lemma vscodeIds_cons_pos {p : Plugin} (hp : p.engineType = "vscode".toList)
    (ps : List Plugin) : vscodeIds (p :: ps) = p.id :: vscodeIds ps := by
  simp only [vscodeIds, List.filterMap_cons, if_pos hp]

lemma vscodeIds_cons_neg {p : Plugin} (hp : ¬ p.engineType = "vscode".toList)
    (ps : List Plugin) : vscodeIds (p :: ps) = vscodeIds ps := by
  simp only [vscodeIds, List.filterMap_cons, if_neg hp]

lemma scanLoop_fst (plugins : List Plugin) :
    ∀ (acc : List Str) (st : ModelState), WFExtMap st.extensions →
      (scanLoop plugins acc st).1 = (vscodeIds plugins).foldl jsSetAdd acc := by
  induction plugins with
  | nil => intro acc st _; simp [scanLoop, vscodeIds]
  | cons p ps ih =>
    intro acc st hwf
    by_cases hp : p.engineType = "vscode".toList
    · have hid : ((setExtensionMap st.extensions p.id).1).id = p.id :=
        (wf_setExtensionMap hwf p.id).2
      have hwf' : WFExtMap (setExtensionMap st.extensions p.id).2 :=
        (wf_setExtensionMap hwf p.id).1
      simp only [scanLoop, if_pos hp, vscodeIds_cons_pos hp, List.foldl_cons, hid]
      exact ih _ _ hwf'
    · simp only [scanLoop, if_neg hp, vscodeIds_cons_neg hp]
      exact ih _ _ hwf

lemma wf_scanExtMap (plugins : List Plugin) :
    ∀ m : ExtMap, WFExtMap m → WFExtMap (scanExtMap plugins m) := by
  induction plugins with
  | nil => intro m h; simpa [scanExtMap] using h
  | cons p ps ih =>
    intro m h
    by_cases hp : p.engineType = "vscode".toList
    · simp only [scanExtMap, if_pos hp]
      exact ih _ (wf_setExtensionMap h p.id).1
    · simp only [scanExtMap, if_neg hp]
      exact ih _ h

lemma findExt_scanExtMap_mono (plugins : List Plugin) :
    ∀ (m : ExtMap) (k : Str), (findExt m k).isSome = true →
      (findExt (scanExtMap plugins m) k).isSome = true := by
  induction plugins with
  | nil => intro m k h; simpa [scanExtMap] using h
  | cons p ps ih =>
    intro m k h
    by_cases hp : p.engineType = "vscode".toList
    · have h' : (findExt (setExtensionMap m p.id).2 k).isSome = true := by
        rw [findExt_setExtensionMap]
        by_cases hk : k = p.id
        · simp [hk]
        · simpa [hk] using h
      simp only [scanExtMap, if_pos hp]
      exact ih _ _ h'
    · simp only [scanExtMap, if_neg hp]
      exact ih _ _ h

lemma findExt_scanExtMap_of_mem (plugins : List Plugin) :
    ∀ (m : ExtMap) (k : Str), k ∈ vscodeIds plugins →
      (findExt (scanExtMap plugins m) k).isSome = true := by
  induction plugins with
  | nil => intro m k h; simp [vscodeIds] at h
  | cons p ps ih =>
    intro m k h
    by_cases hp : p.engineType = "vscode".toList
    · rw [vscodeIds_cons_pos hp] at h
      rcases List.mem_cons.mp h with h1 | h2
      · have hset : (findExt (setExtensionMap m p.id).2 k).isSome = true := by
          rw [findExt_setExtensionMap]; simp [h1]
        simp only [scanExtMap, if_pos hp]
        exact findExt_scanExtMap_mono ps _ _ hset
      · simp only [scanExtMap, if_pos hp]
        exact ih _ _ h2
    · rw [vscodeIds_cons_neg hp] at h
      simp only [scanExtMap, if_neg hp]
      exact ih _ _ h

/-! Preservation of the id-set invariant together with map well-formedness. -/

/-- The combined inductive invariant: map well-formedness plus the id-set
containment property. -/
def Inv2 (s : ModelState) : Prop := WFExtMap s.extensions ∧ InvIds s

lemma filterLocal_proj (plugins : List Plugin) (query : Str) (s : ModelState) :
    (filterLocalExtensions plugins query s).extensions = s.extensions ∧
    (filterLocalExtensions plugins query s).installed =
      filterLoop s.extensions (getPrefixStr query)
        (lowerS (trimStr (jsReplaceFirst query (getPrefixStr query) []))) plugins [] ∧
    (filterLocalExtensions plugins query s).defaultInstalled = s.defaultInstalled ∧
    (filterLocalExtensions plugins query s).searchResult = s.searchResult ∧
    (filterLocalExtensions plugins query s).logs = s.logs := by
  unfold filterLocalExtensions
  by_cases h : reTestInstalled query || reTestBuiltin query
  · simp [h]
  · simp [h]

lemma inv2_assignDefault {s : ModelState} (h : Inv2 s) :
    Inv2 { s with installed := s.defaultInstalled } := by
  refine ⟨h.1, ?_⟩
  intro id hid
  apply h.2
  simp only at hid
  tauto

lemma inv2_snapshotDefault {s : ModelState} (h : Inv2 s) :
    Inv2 { s with defaultInstalled := s.installed } := by
  refine ⟨h.1, ?_⟩
  intro id hid
  apply h.2
  simp only at hid
  tauto

lemma inv2_fireChange {s : ModelState} (h : Inv2 s) : Inv2 (withDidChange s) := by
  refine ⟨h.1, ?_⟩
  intro id hid
  exact h.2 id hid

lemma inv2_localFilter {s : ModelState} (h : Inv2 s) (plugins : List Plugin)
    (query : Str) : Inv2 (filterLocalExtensions plugins query s) := by
  obtain ⟨hext, hins, hdef, hsr, _⟩ := filterLocal_proj plugins query s
  refine ⟨by rw [hext]; exact h.1, ?_⟩
  intro id hid
  rw [hext]
  rcases hid with hid | hid | hid
  · rw [hins] at hid
    exact filterLoop_isSome h.1 _ _ plugins [] (by intro a ha; simp at ha) id hid
  · rw [hdef] at hid
    exact h.2 id (Or.inr (Or.inl hid))
  · rw [hsr] at hid
    exact h.2 id (Or.inr (Or.inr hid))

lemma inv2_remoteResults {s : ModelState} (h : Inv2 s) (entries : List SearchEntry) :
    Inv2 (getSearchResults entries s) := by
  unfold getSearchResults
  refine ⟨wf_searchLoop entries [] s.extensions h.1, ?_⟩
  intro id hid
  simp only at hid ⊢
  rcases hid with hid | hid | hid
  · exact findExt_searchLoop_mono entries [] s.extensions id
      (h.2 id (Or.inl hid))
  · exact findExt_searchLoop_mono entries [] s.extensions id
      (h.2 id (Or.inr (Or.inl hid)))
  · rw [searchLoop_fst] at hid
    rcases (mem_foldl_jsSetAdd _ _ _).mp hid with hid | hid
    · simp at hid
    · exact searchLoop_isSome_of_mem entries [] s.extensions id hid

lemma inv2_updInst {s : ModelState} (h : Inv2 s) (plugins : List Plugin) :
    Inv2 (updateInstalled plugins s) := by
  unfold updateInstalled
  obtain ⟨hext, hdef, hsr, _, _⟩ := scanLoop_proj plugins [] s
  refine ⟨?_, ?_⟩
  · simp only [hext]
    exact wf_scanExtMap plugins s.extensions h.1
  · intro id hid
    simp only [hext] at hid ⊢
    rcases hid with hid | hid | hid
    · rw [mem_jsSetOfList, mem_stableSort, scanLoop_fst plugins [] s h.1] at hid
      rcases (mem_foldl_jsSetAdd _ _ _).mp hid with hid | hid
      · simp at hid
      · exact findExt_scanExtMap_of_mem plugins s.extensions id hid
    · rw [hdef] at hid
      exact findExt_scanExtMap_mono plugins s.extensions id (h.2 id (Or.inr (Or.inl hid)))
    · rw [hsr] at hid
      exact findExt_scanExtMap_mono plugins s.extensions id (h.2 id (Or.inr (Or.inr hid)))

lemma refreshRun_snd_proj (id : Str) (resp : RefreshResp) (s : ModelState) :
    (refreshRun id resp s).2.installed = s.installed ∧
    (refreshRun id resp s).2.defaultInstalled = s.defaultInstalled ∧
    (refreshRun id resp s).2.searchResult = s.searchResult ∧
    (refreshRun id resp s).2.events = s.events := by
  unfold refreshRun onDidFailRefresh
  cases resp with
  | thrown =>
    cases hf : findExt s.extensions id with
    | some cached => by_cases hc : cached.installed <;> simp [hf, hc]
    | none => simp [hf]
  | value v =>
    cases v with
    | none => simp
    | some d =>
      by_cases he : d.err.isSome
      · cases hf : findExt s.extensions id with
        | some cached => by_cases hc : cached.installed <;> simp [he, hf, hc]
        | none => simp [he, hf]
      · simp [he]

lemma inv2_refresh {s : ModelState} (h : Inv2 s) (id : Str) (resp : RefreshResp) :
    Inv2 (refreshRun id resp s).2 ∧
    (∀ ext, (refreshRun id resp s).1 = some ext → ext.id = id) := by
  unfold refreshRun onDidFailRefresh
  have hbase : ∀ l, Inv2 { s with logs := l } := by
    intro l
    exact ⟨h.1, fun i hi => h.2 i hi⟩
  cases resp with
  | thrown =>
    cases hf : findExt s.extensions id with
    | some cached =>
      by_cases hc : cached.installed
      · simp only [hf, hc, if_pos]
        exact ⟨h, fun ext hext => by cases hext; exact h.1 id cached hf⟩
      · simp only [hf, hc, if_neg, Bool.false_eq_true, if_false]
        exact ⟨hbase _, by intro ext hext; cases hext⟩
    | none =>
      simp only [hf]
      exact ⟨hbase _, by intro ext hext; cases hext⟩
  | value v =>
    cases v with
    | none => exact ⟨h, by intro ext hext; cases hext⟩
    | some d =>
      by_cases he : d.err.isSome
      · simp only [he, if_pos]
        cases hf : findExt s.extensions id with
        | some cached =>
          by_cases hc : cached.installed
          · simp only [hf, hc, if_pos]
            exact ⟨h, fun ext hext => by cases hext; exact h.1 id cached hf⟩
          · simp only [hf, hc, Bool.false_eq_true, if_false]
            exact ⟨hbase _, by intro ext hext; cases hext⟩
        | none =>
          simp only [hf]
          exact ⟨hbase _, by intro ext hext; cases hext⟩
      · simp only [he, Bool.false_eq_true, if_false]
        constructor
        · constructor
          · apply wf_mapSetExt (wf_setExtensionMap h.1 id).1
            rw [updateExt_id]
            exact (wf_setExtensionMap h.1 id).2
          · intro i hi
            simp only at hi ⊢
            rw [findExt_mapSetExt]
            by_cases hik : i = id
            · simp [hik]
            · simp only [hik, if_false]
              rw [findExt_setExtensionMap]
              simp only [hik, if_false]
              exact h.2 i hi
        · intro ext hext
          cases hext
          rw [updateExt_id]
          exact (wf_setExtensionMap h.1 id).2

lemma inv2_resolve {s : ModelState} (h : Inv2 s) (compile : Str → Str) (id : Str)
    (resp : RefreshResp) (fetch : FetchResp) :
    Inv2 (resolveRun compile id resp fetch s).2 := by
  unfold resolveRun
  have hr := inv2_refresh h id resp
  cases hx : (refreshRun id resp s).1 with
  | none => simpa [hx] using hr.1
  | some ext =>
    have hid : ext.id = id := hr.2 ext hx
    have hinv : Inv2 (refreshRun id resp s).2 := hr.1
    have hmap : ∀ newExt : VSXExtension, newExt.id = id →
        Inv2 { (refreshRun id resp s).2 with
          extensions := mapSetExt (refreshRun id resp s).2.extensions id newExt } := by
      intro newExt hnid
      constructor
      · exact wf_mapSetExt hinv.1 hnid
      · intro i hi
        simp only at hi ⊢
        rw [findExt_mapSetExt]
        by_cases hik : i = id
        · simp [hik]
        · simp only [hik, if_false]
          exact hinv.2 i hi
    simp only [hx]
    by_cases hru : isTruthyStr ext.readmeUrl
    · simp only [hru, if_pos]
      cases fetch with
      | ok text =>
        apply inv2_fireChange
        exact hmap _ (by rw [updateExt_id]; exact hid)
      | errStatus code =>
        by_cases hc : code = 404
        · simp only [hc, if_pos]
          exact inv2_fireChange hinv
        · simp only [hc, if_neg, if_false]
          apply inv2_fireChange
          exact ⟨hinv.1, fun i hi => hinv.2 i hi⟩
      | errOther =>
        apply inv2_fireChange
        exact ⟨hinv.1, fun i hi => hinv.2 i hi⟩
    · simp only [hru, Bool.false_eq_true, if_false]
      exact inv2_fireChange hinv

lemma inv2_searchRun {s : ModelState} (h : Inv2 s) (plugins : List Plugin)
    (api : Str → List SearchEntry) (query : Str) :
    Inv2 (doUpdateSearchResultRun plugins api query s).1 := by
  unfold doUpdateSearchResultRun
  by_cases h0 : query.isEmpty
  · simp only [h0, if_pos]
    exact inv2_fireChange (inv2_assignDefault h)
  · by_cases h1 : isPrefixQueryStr query
    · simp only [h0, Bool.false_eq_true, if_false, h1, if_pos]
      exact inv2_fireChange (inv2_localFilter h plugins query)
    · simp only [h0, h1, Bool.false_eq_true, if_false]
      exact inv2_fireChange (inv2_remoteResults h (api query))

lemma inv2_step {s s' : ModelState} (h : Inv2 s) (hstep : ModelStep s s') :
    Inv2 s' := by
  cases hstep with
  | assignDefaultInstalled s => exact inv2_assignDefault h
  | localFilter plugins query s => exact inv2_localFilter h plugins query
  | remoteResults entries s => exact inv2_remoteResults h entries
  | searchRun plugins api query s => exact inv2_searchRun h plugins api query
  | scanInstalled plugins s => exact inv2_updInst h plugins
  | snapshotDefault s => exact inv2_snapshotDefault h
  | refreshStep id resp s => exact (inv2_refresh h id resp).1
  | resolveStep compile id resp fetch s => exact inv2_resolve h compile id resp fetch
  | fireChange s => exact inv2_fireChange h

lemma inv2_init : Inv2 initState := by
  constructor
  · intro k ext hk
    simp [initState, findExt] at hk
  · intro id hid
    simp [initState] at hid

lemma inv2_reachable {s : ModelState} (h : ReachableModel s) : Inv2 s := by
  induction h with
  | init => exact inv2_init
  | step _ hstep ih => exact inv2_step ih hstep

/-! Remaining shared helper lemmas for the claim theorems. -/

/-- The events appended by `filterLocalExtensions`: exactly one
`onDidResults` firing when the whole query passes `/@installed/i` or
`/@builtin/i`, and none otherwise. -/
lemma filterLocal_events_eq (plugins : List Plugin) (query : Str) (s : ModelState) :
    (filterLocalExtensions plugins query s).events =
      s.events ++
        (if reTestInstalled query || reTestBuiltin query then
          [ModelEvent.didResults (filterLocalExtensions plugins query s).installed.length]
        else []) := by
  unfold filterLocalExtensions
  by_cases h : reTestInstalled query || reTestBuiltin query
  · simp [h]
  · simp [h]

/-- The two outcomes of `onDidFailRefresh`. -/
lemma onDidFail_cases (id : Str) (s : ModelState) :
    (∀ c, findExt s.extensions id = some c → c.installed = true →
      onDidFailRefresh id s = (some c, s)) ∧
    ((∀ c, findExt s.extensions id = some c → c.installed = false) →
      onDidFailRefresh id s = (none, { s with logs := s.logs ++ [id] })) := by
  unfold onDidFailRefresh
  cases hf : findExt s.extensions id with
  | some cached =>
    constructor
    · intro c hc hi
      cases hc
      simp [hi]
    · intro hall
      have := hall cached rfl
      simp [this]
  | none =>
    constructor
    · intro c hc
      cases hc
    · intro _
      rfl

/-- The comparator used by `updateInstalled`, over the post-scan map. -/
def scanCmp (plugins : List Plugin) (m : ExtMap) : Str → Str → Ordering :=
  fun a b => compareExtensions (scanExtMap plugins m) a b

/-- The installed set after `updateInstalled`: the stable sort, by the
display-name/publisher comparator over the post-scan map, of the deduped
ids of the supported plugins — independent of the previous state of the
three id-sets. -/
lemma updateInstalled_installed_eq (plugins : List Plugin) (s : ModelState)
    (hwf : WFExtMap s.extensions) :
    (updateInstalled plugins s).installed =
      stableSort (scanCmp plugins s.extensions) (jsSetOfList (vscodeIds plugins)) := by
  unfold updateInstalled
  show jsSetOfList (stableSort
      (fun a b => compareExtensions (scanLoop plugins [] s).2.extensions a b)
      (scanLoop plugins [] s).1) = _
  have hproj := (scanLoop_proj plugins [] s).1
  have hfst := scanLoop_fst plugins [] s hwf
  simp only [hproj, hfst]
  rw [show List.foldl jsSetAdd [] (vscodeIds plugins) = jsSetOfList (vscodeIds plugins)
    from rfl]
  rw [jsSetOfList_of_nodup (nodup_stableSort (nodup_jsSetOfList _))]
  rfl

/-!
The claim theorems.
-/

/-- Claim C1: for every reachable state of the model, every id contained in
`installedIds`, `defaultInstalledIds` or `searchResultIds` has a
corresponding entry in `extensionsById`, so `getExtension(id)` is defined
for every id in those sets; every operation (installed-scan, search-update,
local filter, per-id refresh, resolve) preserves this. -/
theorem c1_id_sets_have_entries (s : ModelState) (hreach : ReachableModel s)
    (id : Str) (hid : id ∈ s.installed ∨ id ∈ s.defaultInstalled ∨ id ∈ s.searchResult) :
    (findExt s.extensions id).isSome = true :=
  (inv2_reachable hreach).2 id hid

def c1Plugin : Plugin := { id := "ns.a".toList, engineType := "vscode".toList }

theorem c1_witness :
    (findExt (updateInstalled [c1Plugin] initState).extensions ("ns.a".toList)).isSome
      = true :=
  c1_id_sets_have_entries (updateInstalled [c1Plugin] initState)
    (ReachableModel.step ReachableModel.init
      (ModelStep.scanInstalled [c1Plugin] initState))
    ("ns.a".toList) (Or.inl (by decide))

/-- Claim C3: running a search-update with the empty query sets
`installedIds` to exactly the `defaultInstalledIds` snapshot, touches
neither the map nor the search-result set, and performs no call to the
remote registry search API. -/
theorem c3_empty_query_restores_default (plugins : List Plugin)
    (api : Str → List SearchEntry) (s : ModelState) :
    (doUpdateSearchResultRun plugins api [] s).1.installed = s.defaultInstalled ∧
    (doUpdateSearchResultRun plugins api [] s).2 = false ∧
    (doUpdateSearchResultRun plugins api [] s).1.extensions = s.extensions ∧
    (doUpdateSearchResultRun plugins api [] s).1.searchResult = s.searchResult := by
  simp [doUpdateSearchResultRun, withDidChange]

/-- Claim C4: for every query of the form `@installed <rest>`, the local
filter pass produces as the new installed set exactly the subset of the
plugin-host-reported extensions whose id, display name or description
contains the trimmed, lowercased remainder as a case-insensitive substring,
extensions without a (truthy) display name or description being skipped
entirely. -/
theorem c4_installed_filter_exact (plugins : List Plugin) (s : ModelState) (rest : Str) :
    (filterLocalExtensions plugins ("@installed".toList ++ ' ' :: rest) s).installed =
      jsSetOfList
        (plugins.filterMap (localMatchSpec s.extensions (lowerS (trimStr rest)))) := by
  obtain ⟨_, hins, _, _, _⟩ :=
    filterLocal_proj plugins ("@installed".toList ++ ' ' :: rest) s
  rw [hins]
  rw [show getPrefixStr ("@installed".toList ++ ' ' :: rest) = "@installed".toList
    from rfl]
  rw [show jsReplaceFirst ("@installed".toList ++ ' ' :: rest) ("@installed".toList) []
      = ' ' :: rest from rfl]
  rw [show trimStr (' ' :: rest) = trimStr rest from rfl]
  rw [filterLoop_eq_spec (by decide) (by decide)]
  rfl

/-- Claim C5 counterexample: for the prefix query `@installedz`, whose
leading token is not itself one of the two keywords, the local filter pass
nevertheless fires the result-count notification, because the source tests
the unanchored regular expression `/@installed/i` against the query. -/
theorem c5_counterexample :
    isPrefixQueryStr ("@installedz".toList) = true ∧
    lowerS (getPrefixStr ("@installedz".toList)) ≠ "@installed".toList ∧
    lowerS (getPrefixStr ("@installedz".toList)) ≠ "@builtin".toList ∧
    (filterLocalExtensions [] ("@installedz".toList) initState).events
      = [ModelEvent.didResults 0] := by decide

/-- Claim C5 (amended): the local filter pass fires the result-count
notification if and only if the whole query contains `@installed` or
`@builtin` as a case-insensitive substring (the source applies the
unanchored tests `/@installed/i` and `/@builtin/i` to the full query, not
an exact-match test to its leading token); the notification carries the
size of the new installed set. -/
theorem c5_fires_iff_query_contains_keyword (plugins : List Plugin) (query : Str)
    (s : ModelState) :
    (filterLocalExtensions plugins query s).events =
      s.events ++
        (if reTestInstalled query || reTestBuiltin query then
          [ModelEvent.didResults (filterLocalExtensions plugins query s).installed.length]
        else []) :=
  filterLocal_events_eq plugins query s

/-- Claim C10 counterexample: for the query `@foo @installed`, whose leading
token matches neither keyword, the local filter pass empties the installed
set but still fires the result-count notification, because the firing test
is run against the whole query. -/
theorem c10_counterexample :
    isPrefixQueryStr ("@foo @installed".toList) = true ∧
    reTestInstalled (getPrefixStr ("@foo @installed".toList)) = false ∧
    reTestBuiltin (getPrefixStr ("@foo @installed".toList)) = false ∧
    (filterLocalExtensions [] ("@foo @installed".toList) initState).installed = [] ∧
    (filterLocalExtensions [] ("@foo @installed".toList) initState).events
      = [ModelEvent.didResults 0] := by decide

/-- Claim C10 (amended): for every query starting with `@` whose leading
token matches neither `/@installed/i` nor `/@builtin/i`, the local filter
pass sets the installed set to the empty set with no remote call; it stays
silent exactly when neither keyword occurs anywhere in the whole query
(case-insensitively), and otherwise still fires the result-count
notification with count 0. -/
theorem c10_unknown_prefix_empties_installed (plugins : List Plugin) (query : Str)
    (s : ModelState) (_hq : isPrefixQueryStr query = true)
    (hin : reTestInstalled (getPrefixStr query) = false)
    (hbi : reTestBuiltin (getPrefixStr query) = false) :
    (filterLocalExtensions plugins query s).installed = [] ∧
    (filterLocalExtensions plugins query s).events =
      s.events ++
        (if reTestInstalled query || reTestBuiltin query then
          [ModelEvent.didResults 0] else []) := by
  obtain ⟨_, hins, _, _, _⟩ := filterLocal_proj plugins query s
  have h0 : (filterLocalExtensions plugins query s).installed = [] := by
    rw [hins, filterLoop_of_no_kw hin hbi]
  refine ⟨h0, ?_⟩
  rw [filterLocal_events_eq plugins query s, h0]
  simp

theorem c10_witness :
    (filterLocalExtensions [] ("@foo bar".toList) initState).installed = [] ∧
    (filterLocalExtensions [] ("@foo bar".toList) initState).events =
      initState.events ++
        (if reTestInstalled ("@foo bar".toList) || reTestBuiltin ("@foo bar".toList) then
          [ModelEvent.didResults 0] else []) :=
  c10_unknown_prefix_empties_installed [] ("@foo bar".toList) initState
    (by decide) (by decide) (by decide)

/-- Claim C6: when a per-id refresh fails (the request threw, or the remote
collaborator reported a domain-level error), then: if a cached registry
entry exists and is marked installed, refresh returns that cached entry and
the whole state — in particular `installedIds` — is left unmodified; if no
installed cached entry exists, refresh returns nothing and appends one
diagnostic to the log, leaving everything else unchanged. -/
theorem c6_refresh_failure_policy (id : Str) (resp : RefreshResp) (s : ModelState)
    (hfail : refreshFailed resp = true) :
    (∀ c, findExt s.extensions id = some c → c.installed = true →
      refreshRun id resp s = (some c, s)) ∧
    ((∀ c, findExt s.extensions id = some c → c.installed = false) →
      refreshRun id resp s = (none, { s with logs := s.logs ++ [id] })) := by
  cases resp with
  | thrown =>
    show (∀ c, _ → _ → onDidFailRefresh id s = _) ∧ _
    exact onDidFail_cases id s
  | value v =>
    cases v with
    | none => simp [refreshFailed] at hfail
    | some d =>
      have he : d.err.isSome = true := by simpa [refreshFailed] using hfail
      simp only [refreshRun, if_pos he]
      exact onDidFail_cases id s

def c6Ext : VSXExtension := { id := "x.y".toList, installed := true }

def c6State : ModelState := { initState with extensions := [("x.y".toList, c6Ext)] }

theorem c6_witness :
    refreshRun ("x.y".toList) RefreshResp.thrown c6State = (some c6Ext, c6State) :=
  (c6_refresh_failure_policy ("x.y".toList) RefreshResp.thrown c6State (by decide)).1
    c6Ext (by decide) (by decide)

/-- Claim C7: `resolve(id)` fails with a resolution error exactly when the
per-id refresh yields no extension; when refresh yields an extension and
the readme fetch fails with a 404 response error, resolve succeeds with the
extension as refresh produced it (its readme not updated — in particular
still absent for an id that had no cached entry) and nothing is logged, the
404 being suppressed. -/
theorem c7_resolve_error_iff_refresh_empty (compile : Str → Str) (id : Str)
    (resp : RefreshResp) (fetch : FetchResp) (s : ModelState) :
    ((resolveRun compile id resp fetch s).1 = Except.error () ↔
      (refreshRun id resp s).1 = none) ∧
    (∀ ext, (refreshRun id resp s).1 = some ext →
      resolveRun compile id resp (FetchResp.errStatus 404) s =
        (Except.ok ext, withDidChange (refreshRun id resp s).2) ∧
      (refreshRun id resp s).2.logs = s.logs) ∧
    (findExt s.extensions id = none →
      ∀ ext, (refreshRun id resp s).1 = some ext → ext.readme = none) := by
  refine ⟨?_, ?_, ?_⟩
  · cases hx : (refreshRun id resp s).1 with
    | none => simp [resolveRun, hx]
    | some ext =>
      simp only [resolveRun, hx]
      constructor
      · intro h
        exfalso
        by_cases hru : isTruthyStr ext.readmeUrl
        · rw [if_pos hru] at h
          cases fetch with
          | ok text => simp at h
          | errStatus code =>
            by_cases hc : code = 404
            · simp [hc] at h
            · simp [hc] at h
          | errOther => simp at h
        · rw [if_neg hru] at h
          simp at h
      · intro h
        simp at h
  · intro ext hx
    constructor
    · simp only [resolveRun, hx]
      by_cases hru : isTruthyStr ext.readmeUrl
      · rw [if_pos hru]
        simp
      · rw [if_neg hru]
    · cases resp with
      | thrown =>
        simp only [refreshRun] at hx ⊢
        unfold onDidFailRefresh at hx ⊢
        cases hf : findExt s.extensions id with
        | some cached =>
          by_cases hc : cached.installed
          · simp [hf, hc]
          · rw [hf] at hx
            simp [hc] at hx
        | none =>
          rw [hf] at hx
          simp at hx
      | value v =>
        cases v with
        | none => simp [refreshRun] at hx
        | some d =>
          by_cases he : d.err.isSome
          · simp only [refreshRun, if_pos he] at hx ⊢
            unfold onDidFailRefresh at hx ⊢
            cases hf : findExt s.extensions id with
            | some cached =>
              by_cases hc : cached.installed
              · simp [hf, hc]
              · rw [hf] at hx
                simp [hc] at hx
            | none =>
              rw [hf] at hx
              simp at hx
          · simp [refreshRun, if_neg he]
  · intro hf ext hx
    cases resp with
    | thrown => simp [refreshRun, onDidFailRefresh, hf] at hx
    | value v =>
      cases v with
      | none => simp [refreshRun] at hx
      | some d =>
        by_cases he : d.err.isSome
        · simp [refreshRun, if_pos he, onDidFailRefresh, hf] at hx
        · simp only [refreshRun, if_neg he, Option.some.injEq] at hx
          rw [← hx]
          rw [show (setExtensionMap s.extensions id).1 = mkExtension id by
            rw [setExtensionMap_fst, hf]; rfl]
          rfl

def idCompile : Str → Str := fun t => t

def c7Data : VersionData :=
  { ns := "NS".toList, version := "1".toList, files := { readme := some ("u".toList) } }

def c7Ext : VSXExtension :=
  updateExt (mkExtension ("x.y".toList)) (versionUpdateData c7Data)

theorem c7_witness :
    resolveRun idCompile ("x.y".toList) (RefreshResp.value (some c7Data))
        (FetchResp.errStatus 404) initState =
      (Except.ok c7Ext,
        withDidChange
          (refreshRun ("x.y".toList) (RefreshResp.value (some c7Data)) initState).2) ∧
    (refreshRun ("x.y".toList) (RefreshResp.value (some c7Data)) initState).2.logs =
      initState.logs :=
  (c7_resolve_error_iff_refresh_empty idCompile ("x.y".toList)
    (RefreshResp.value (some c7Data)) (FetchResp.errStatus 404) initState).2.1
    c7Ext (by decide)

/-- Claim C8: for every remote-search pass on a non-empty, non-prefix
query, the remote search API is called; the new `searchResultIds` set is
exactly the set of computed ids (`namespace.name`, both lowercased) of the
result groups that have a latest compatible version; the result-count
notification always fires with the new set's size (followed by the
`onDidChange` of the completed task), also when the set is empty; and —
when the computed ids are pairwise distinct — the remote fields of each
such group are merged into the registry entry under its computed id. -/
theorem c8_remote_search_results (plugins : List Plugin)
    (api : Str → List SearchEntry) (query : Str) (s : ModelState)
    (h0 : query.isEmpty = false) (h1 : isPrefixQueryStr query = false) :
    (doUpdateSearchResultRun plugins api query s).2 = true ∧
    (doUpdateSearchResultRun plugins api query s).1.searchResult =
      jsSetOfList (searchSpecIds (api query)) ∧
    (doUpdateSearchResultRun plugins api query s).1.events =
      s.events ++
        [ModelEvent.didResults (jsSetOfList (searchSpecIds (api query))).length,
         ModelEvent.didChange] ∧
    ((searchSpecIds (api query)).Nodup →
      ∀ e ∈ api query, ∀ v, e.latestCompatible = some v →
        findExt (doUpdateSearchResultRun plugins api query s).1.extensions
            (computedId e) =
          some (updateExt ((setExtensionMap s.extensions (computedId e)).1)
            (searchUpdateData e v))) := by
  have hrun : doUpdateSearchResultRun plugins api query s =
      (withDidChange (getSearchResults (api query) s), true) := by
    unfold doUpdateSearchResultRun
    rw [if_neg (by simp [h0]), if_neg (by simp [h1])]
  rw [hrun]
  have hfst : (searchLoop (api query) [] s.extensions).1 =
      jsSetOfList (searchSpecIds (api query)) := searchLoop_fst (api query) [] s.extensions
  refine ⟨rfl, ?_, ?_, ?_⟩
  · show (searchLoop (api query) [] s.extensions).1 = _
    exact hfst
  · show (s.events ++ [ModelEvent.didResults (searchLoop (api query) [] s.extensions).1.length])
        ++ [ModelEvent.didChange] = _
    rw [hfst, List.append_assoc]
    rfl
  · intro hnd e he v hv
    show findExt (searchLoop (api query) [] s.extensions).2 (computedId e) = _
    exact searchLoop_at (api query) [] s.extensions hnd e he v hv

def c8Entry : SearchEntry :=
  { ns := "NS".toList, name := "Ext".toList,
    latestCompatible := some { version := "1.0".toList } }

def c8Api : Str → List SearchEntry := fun _ => [c8Entry]

theorem c8_witness :
    (doUpdateSearchResultRun [] c8Api ("foo".toList) initState).2 = true ∧
    (doUpdateSearchResultRun [] c8Api ("foo".toList) initState).1.searchResult =
      jsSetOfList (searchSpecIds (c8Api ("foo".toList))) ∧
    (doUpdateSearchResultRun [] c8Api ("foo".toList) initState).1.searchResult =
      [("ns.ext".toList)] :=
  ⟨(c8_remote_search_results [] c8Api ("foo".toList) initState (by decide) (by decide)).1,
   (c8_remote_search_results [] c8Api ("foo".toList) initState (by decide) (by decide)).2.1,
   by decide⟩

/-- Claim C9: after an installed scan, the installed set consists of exactly
the ids of the plugins whose engine type is the supported kind `vscode`
(deduplicated), arranged by the stable display-name/publisher comparator
over the post-scan extension map — ties keep their relative order — and the
result does not depend on the previous contents of `installedIds`. -/
theorem c9_installed_scan_rebuilds (plugins : List Plugin) (s : ModelState)
    (hwf : WFExtMap s.extensions) :
    (updateInstalled plugins s).installed =
      stableSort (scanCmp plugins s.extensions) (jsSetOfList (vscodeIds plugins)) ∧
    (∀ id, id ∈ (updateInstalled plugins s).installed ↔ id ∈ vscodeIds plugins) ∧
    (∀ l1 l2, (updateInstalled plugins { s with installed := l1 }).installed =
      (updateInstalled plugins { s with installed := l2 }).installed) := by
  refine ⟨updateInstalled_installed_eq plugins s hwf, ?_, ?_⟩
  · intro id
    rw [updateInstalled_installed_eq plugins s hwf, mem_stableSort, mem_jsSetOfList]
  · intro l1 l2
    have h1 : WFExtMap ({ s with installed := l1 } : ModelState).extensions := hwf
    have h2 : WFExtMap ({ s with installed := l2 } : ModelState).extensions := hwf
    rw [updateInstalled_installed_eq plugins _ h1, updateInstalled_installed_eq plugins _ h2]

def c9PluginA : Plugin := { id := "b.b".toList, engineType := "vscode".toList }

def c9PluginB : Plugin := { id := "a.a".toList, engineType := "other".toList }

theorem c9_witness :
    (updateInstalled [c9PluginA, c9PluginB] initState).installed =
      stableSort (scanCmp [c9PluginA, c9PluginB] initState.extensions)
        (jsSetOfList (vscodeIds [c9PluginA, c9PluginB])) ∧
    (updateInstalled [c9PluginA, c9PluginB] initState).installed = [("b.b".toList)] :=
  ⟨(c9_installed_scan_rebuilds [c9PluginA, c9PluginB] initState
      (fun k ext hk => by simp [initState, findExt] at hk)).1,
   by decide⟩

/-!
Claim C2 concerns the interleaving machine.  The schedule below runs an old
search task (token 0, query `a`) up to its suspension at the remote search
call, cancels its token and runs a newer task (token 1, query `ab`) to
completion — the newer task commits `searchResultIds = [n.b]` — and then
lets the old, cancelled task resume.  In the source, `getSearchResults`
runs after `await this.api.search` without re-checking the token, so the
cancelled task overwrites the newer committed state and fires
`onDidResults`; only the final `onDidChange` is suppressed.
-/

def ceEntryA : SearchEntry :=
  { ns := "n".toList, name := "a".toList,
    latestCompatible := some { version := "1".toList } }

def ceEntryB : SearchEntry :=
  { ns := "n".toList, name := "b".toList,
    latestCompatible := some { version := "1".toList } }

def ceApi : Str → List SearchEntry :=
  fun q => if q = "a".toList then [ceEntryA] else [ceEntryB]

def ceSys : SysState :=
  { model := initState, cancelledToks := [],
    tasks := [(0, { token := 0, query := "a".toList, pc := TaskPC.ready }),
              (1, { token := 1, query := "ab".toList, pc := TaskPC.ready })] }

def ceSchedPre : List SchedAction :=
  [SchedAction.startT 0, SchedAction.cancelT 0, SchedAction.startT 1,
   SchedAction.resumeT 1, SchedAction.postT 1]

def ceSched : List SchedAction :=
  ceSchedPre ++ [SchedAction.resumeT 0, SchedAction.postT 0]

/-- Claim C2 is violated by the code: after the newer task committed
`searchResultIds = [n.b]` (and the old task's token was cancelled while it
was suspended at the remote search await), letting the old task resume
overwrites the committed state with its late result `[n.a]` and fires a
further `onDidResults`; only `onDidChange` is suppressed for the cancelled
task.  The spec's claim that the token is checked immediately before each
mutation, so that a cancelled task commits no visible state change, fails
on this schedule. -/
theorem c2_cancelled_task_overwrites :
    (sysRun [] ceApi ceSys ceSchedPre).model.searchResult = [("n.b".toList)] ∧
    (0 : Nat) ∈ (sysRun [] ceApi ceSys ceSchedPre).cancelledToks ∧
    findTask (sysRun [] ceApi ceSys ceSchedPre).tasks 0 =
      some { token := 0, query := "a".toList, pc := TaskPC.waiting } ∧
    (sysRun [] ceApi ceSys ceSched).model.searchResult = [("n.a".toList)] ∧
    (sysRun [] ceApi ceSys ceSched).model.events =
      [ModelEvent.didResults 1, ModelEvent.didChange, ModelEvent.didResults 1] := by
  decide

end VsxReg
